import Mathlib

/-!
Shallow embedding of the `gifstream` repository (src/gif.rs, src/lib.rs).

Byte buffers are modelled as `List Nat` (each element a byte value); the
Rust functions that append to a `&mut Vec<u8>` are modelled as functions
returning exactly the list of bytes they append.  Machine integers are
`Nat`, with `% 256` where a `u8` cast or little-endian split occurs.

The two external capabilities of the crate — the NeuQuant color
quantizer and the weezl LZW coder — are out of the repository's scope
(spec §1) and are represented by their interfaces: a `Quantizer`
(pixel-to-index lookup plus derived RGB table) and an abstract
compressed-body function passed to `lzw_encode`.
-/

namespace Gifstream

/-- Little-endian byte pair of a `u16` value (`to_le_bytes`). -/
def u16le (n : Nat) : List Nat := [n % 256, n / 256 % 256]

/-- src/gif.rs `flag_size`: color table size converted to flag bits. -/
def flag_size (size : Nat) : Nat :=
  if size ≤ 2 then 0
  else if size ≤ 4 then 1
  else if size ≤ 8 then 2
  else if size ≤ 16 then 3
  else if size ≤ 32 then 4
  else if size ≤ 64 then 5
  else if size ≤ 128 then 6
  else 7

/-- src/gif.rs `GifEncoder::write_screen_desc`: magic `"GIF89a"`, width,
height (LE), flags byte (default 0), background color 0, aspect 0. -/
def write_screen_desc (width height : Nat) (flags : Option Nat) : List Nat :=
  [71, 73, 70, 56, 57, 97] ++ u16le width ++ u16le height ++ [flags.getD 0, 0, 0]

/-- src/gif.rs `GifEncoder::global_palette_flags`. -/
def global_palette_flags (palette : List Nat) : Nat :=
  let num_colors := palette.length / 3
  (1 <<< 7) ||| flag_size num_colors ||| (flag_size num_colors <<< 4)

/-- src/gif.rs `GifEncoder::write_color_table`: the first
`num_colors * 3` bytes of the table, padded with black `(0,0,0)` triples
(`(2usize << size).saturating_sub(num_colors)` of them). -/
def write_color_table (table : List Nat) : List Nat :=
  let num_colors := table.length / 3
  table.take (num_colors * 3) ++
    (List.replicate ((2 <<< flag_size num_colors) - num_colors) [0, 0, 0]).flatten

/-- src/gif.rs `ExtensionData`. -/
inductive ExtensionData where
  | Control (flags : Nat) (delay : Nat) (transparency_idx : Nat)
  | Repetitions (n : Nat)
  | InfiniteRepetitions

/-- The literal application identifier `"NETSCAPE2.0"` as bytes. -/
def netscape_id : List Nat := [78, 69, 84, 83, 67, 65, 80, 69, 50, 46, 48]

/-- src/gif.rs `GifEncoder::write_extension`: `Repetitions(0)` writes
nothing; otherwise introducer `0x21`, the variant's payload, and a
terminating `0`. -/
def write_extension : ExtensionData → List Nat
  | .Repetitions 0 => []
  | .Control flags delay trns => [0x21, 0xF9, 4, flags] ++ u16le delay ++ [trns, 0]
  | .InfiniteRepetitions => [0x21, 0xFF, 11] ++ netscape_id ++ [3, 1] ++ u16le 0 ++ [0]
  | .Repetitions r => [0x21, 0xFF, 11] ++ netscape_id ++ [3, 1] ++ u16le r ++ [0]

/-- The sub-block payloads produced by the `chunks_exact(0xFF)` loop plus
remainder in src/gif.rs `write_encoded_image_block`, computed with a
structural fuel argument (one unit of fuel per emitted chunk; fuel
`= d.length` always suffices, see `subBlocksF_join` etc.). -/
def subBlocksF : Nat → List Nat → List (List Nat)
  | _, [] => []
  | fuel + 1, d =>
      if 255 ≤ d.length then d.take 255 :: subBlocksF fuel (d.drop 255)
      else [d]
  | 0, d => [d]

/-- Sub-block payloads of a compressed payload: full 255-byte chunks
followed by the nonempty remainder, if any. -/
def subBlocks (d : List Nat) : List (List Nat) := subBlocksF d.length d

/-- src/gif.rs `GifEncoder::write_encoded_image_block`: the leading
minimum-code-size byte (`split_first().unwrap_or((&2, &[]))`), each
sub-block as a length byte followed by its payload, and a final `0`. -/
def write_encoded_image_block (data : List Nat) : List Nat :=
  data.headD 2 :: (((subBlocks data.tail).map fun chunk => chunk.length :: chunk).flatten ++ [0])

/-- The minimum code size computed inside src/gif.rs `lzw_encode`:
`flag_size(1 + max) + 1`, where a result of `1` is replaced by `2`. -/
def min_code_size (data : List Nat) : Nat :=
  match flag_size (1 + data.foldr Nat.max 0) + 1 with
  | 1 => 2
  | n => n

/-- src/gif.rs `lzw_encode`: pushes the minimum code size, then the LZW
coder's output.  The weezl coder is an external capability; `body` is
its compressed output for the given data (the `truncate(len + 1)` keeps
exactly the minimum-code-size byte plus the bytes the coder wrote). -/
def lzw_encode (body : List Nat → List Nat) (data : List Nat) : List Nat :=
  min_code_size data :: body data

/-- src/gif.rs `GifEncoder::write_image_block`. -/
def write_image_block (body : List Nat → List Nat) (data : List Nat) : List Nat :=
  write_encoded_image_block (lzw_encode body data)

/-- src/gif.rs `GifEncoder::write_trailer`. -/
def write_trailer : List Nat := [0x3B]

/-- src/gif.rs `Frame`: indexed raster plus optional local palette and
optional transparent index. -/
structure Frame where
  width : Nat
  height : Nat
  transparent : Option Nat
  palette : Option (List Nat)
  buffer : List Nat

/-- `chunks_exact(4)` over a byte list: complete 4-byte pixels, any
shorter remainder dropped. -/
def chunks_exact4 : List Nat → List (List Nat)
  | a :: b :: c :: d :: rest => [a, b, c, d] :: chunks_exact4 rest
  | _ => []

/-- The transparent-pixel scan shared by `Frame::from_rgba` and
`Frame::with_global_palette_rgba`: for each 4-byte pixel, if its alpha
byte is zero, overwrite the remembered pixel (last write wins). -/
def scan_transparent (data : List Nat) : Option (List Nat) :=
  (chunks_exact4 data).foldl
    (fun t pix => if pix.getD 3 0 == 0 then some pix else t) none

/-- Interface of the external NeuQuant quantizer (spec §1: an external
capability, consumed not reimplemented): nearest-index lookup and the
derived RGB color table. -/
structure Quantizer where
  index_of : List Nat → Nat
  color_map_rgb : List Nat

/-- src/gif.rs `Frame::from_rgba`, with the per-frame `NeuQuant::new`
instance abstracted as a `Quantizer`: last zero-alpha pixel becomes the
transparent index, the quantizer's table is the local palette, and every
pixel maps to its index. -/
def Frame.from_rgba (nq : Quantizer) (w h : Nat) (data : List Nat) : Frame :=
  ⟨w, h, (scan_transparent data).map nq.index_of, some nq.color_map_rgb,
    (chunks_exact4 data).map nq.index_of⟩

/-- src/gif.rs `Frame::with_global_palette_rgba`: same scan, indices
looked up in the caller-supplied global palette, no local table. -/
def Frame.with_global_palette_rgba (gp : Quantizer) (w h : Nat) (data : List Nat) : Frame :=
  ⟨w, h, (scan_transparent data).map gp.index_of, none,
    (chunks_exact4 data).map gp.index_of⟩

/-- src/gif.rs `DisposalMethod`. -/
inductive DisposalMethod where
  | Any
  | Keep
  | Background
  | Previous

/-- The discriminant values of `DisposalMethod` (`dispose as u8`). -/
def DisposalMethod.toByte : DisposalMethod → Nat
  | .Any => 0
  | .Keep => 1
  | .Background => 2
  | .Previous => 3

/-- src/gif.rs `GifEncoder::write_frame_header`: a Control extension
(flags `dispose | 1 << 3`, the delay, the transparent index defaulting
to 0), the image descriptor `0x2C`, zero top/left, width/height, and the
image flags byte, followed by the local color table when present. -/
def write_frame_header (frame : Frame) (delay : Nat) (interlaced : Bool)
    (dispose : DisposalMethod) : List Nat :=
  write_extension (.Control (dispose.toByte ||| (1 <<< 3)) delay (frame.transparent.getD 0)) ++
  [0x2C] ++ u16le 0 ++ u16le 0 ++ u16le frame.width ++ u16le frame.height ++
  (match frame.palette with
   | some palette =>
       ((if interlaced then 1 <<< 6 else 0) ||| (1 <<< 7) ||| flag_size (palette.length / 3)) ::
         write_color_table palette
   | none => [if interlaced then 1 <<< 6 else 0])

/-- src/gif.rs `GifEncoder::write_frame`: header then image block. -/
def write_frame (body : List Nat → List Nat) (frame : Frame) (delay : Nat)
    (interlaced : Bool) (dispose : DisposalMethod) : List Nat :=
  write_frame_header frame delay interlaced dispose ++ write_image_block body frame.buffer

/-- src/lib.rs `MIN_DELAY` (milliseconds). -/
def MIN_DELAY : Nat := 10

/-- src/lib.rs `MAX_DELAY` (hundredths of a second). -/
def MAX_DELAY : Nat := 65535

/-- The frame-delay derivation in src/lib.rs `GifStream::new`:
`(interval.as_millis().max(MIN_DELAY) / 10).min(MAX_DELAY)`. -/
def frame_delay_of_interval (interval_ms : Nat) : Nat :=
  min (max interval_ms MIN_DELAY / 10) MAX_DELAY

/-- The spec's formula for the stored frame delay, written from its
words for comparison with `frame_delay_of_interval`:
`clamp(interval_ms, 10, 65535*10) / 10`. -/
def frame_delay_spec_formula (interval_ms : Nat) : Nat :=
  min (max interval_ms 10) (65535 * 10) / 10

/-- The first chunk yielded by src/lib.rs `GifStream::stream` (the
no-global-palette mode): screen descriptor with
`global_palette_flags(&[])`, then `write_color_table(&[])`. -/
def stream_init_chunk (width height : Nat) : List Nat :=
  write_screen_desc width height (some (global_palette_flags [])) ++ write_color_table []

/-- The first chunk yielded by src/lib.rs
`GifStream::stream_with_palette`: screen descriptor with the palette's
flags, then the written global color table. -/
def stream_palette_init_chunk (palette : List Nat) (width height : Nat) : List Nat :=
  write_screen_desc width height (some (global_palette_flags palette)) ++
    write_color_table palette

/-- One tick's chunk in src/lib.rs `GifStream::stream`: the frame built
by `Frame::from_rgba` (with `nqOf data` the per-frame quantizer),
serialized by `write_frame`. -/
def stream_tick_chunk (body : List Nat → List Nat) (nqOf : List Nat → Quantizer)
    (width height frameDelay : Nat) (interlaced : Bool) (dispose : DisposalMethod)
    (data : List Nat) : List Nat :=
  write_frame body (Frame.from_rgba (nqOf data) width height data)
    frameDelay interlaced dispose

/-- The loop of src/lib.rs `GifStream::stream` over a finite prefix of
producer results: each `Ok` tick yields one frame chunk; the first `Err`
is yielded as-is (the `?` of `try_stream!`) and the stream ends. -/
def stream_loop_items {E : Type} (body : List Nat → List Nat)
    (nqOf : List Nat → Quantizer) (width height frameDelay : Nat)
    (interlaced : Bool) (dispose : DisposalMethod) :
    List (Except E (List Nat)) → List (Except E (List Nat))
  | [] => []
  | .error e :: _ => [.error e]
  | .ok data :: rest =>
      .ok (stream_tick_chunk body nqOf width height frameDelay interlaced dispose data) ::
        stream_loop_items body nqOf width height frameDelay interlaced dispose rest

/-- The full output sequence of src/lib.rs `GifStream::stream` over a
finite prefix of producer results: the init chunk, then the loop. -/
def stream_items {E : Type} (body : List Nat → List Nat)
    (nqOf : List Nat → Quantizer) (width height frameDelay : Nat)
    (interlaced : Bool) (dispose : DisposalMethod)
    (ticks : List (Except E (List Nat))) : List (Except E (List Nat)) :=
  .ok (stream_init_chunk width height) ::
    stream_loop_items body nqOf width height frameDelay interlaced dispose ticks

/-- The last zero-alpha pixel in scan order, written from the spec's
words for comparison with `scan_transparent`: the first 4-byte pixel
with zero alpha when the pixel sequence is scanned from the end. -/
def last_zero_alpha (data : List Nat) : Option (List Nat) :=
  (chunks_exact4 data).reverse.find? fun pix => pix.getD 3 0 == 0

/-! ## Helper lemmas -/

/-- The black padding loop of `write_color_table` flattens to a run of
zero bytes three times as long. -/
theorem flatten_replicate_triple (k : Nat) :
    (List.replicate k ([0, 0, 0] : List Nat)).flatten = List.replicate (3 * k) 0 := by
  induction k with
  | zero => rfl
  | succ k ih =>
      have h3 : 3 * (k + 1) = 3 + 3 * k := by ring
      rw [List.replicate_succ, List.flatten_cons, ih, h3, List.replicate_add]
      rfl

/-- `2usize << size` is the power-of-two bucket `2 ^ (size + 1)`. -/
theorem two_shiftLeft (s : Nat) : 2 <<< s = 2 ^ (s + 1) := by
  rw [Nat.shiftLeft_eq, pow_succ]
  ring

set_option maxRecDepth 4000 in
/-- For every color count up to 256, the count fits inside its
`flag_size` bucket. -/
theorem count_le_bucket : ∀ n : Nat, n < 257 → n ≤ 2 <<< flag_size n := by decide

/-- Fuel `d.length` suffices for `subBlocksF`: the sub-block payloads
concatenate back to the input. -/
theorem subBlocksF_flatten (fuel : Nat) :
    ∀ d : List Nat, d.length ≤ fuel → (subBlocksF fuel d).flatten = d := by
  induction fuel with
  | zero =>
      intro d hd
      have : d = [] := List.length_eq_zero.mp (Nat.le_zero.mp hd)
      subst this
      rfl
  | succ fuel ih =>
      intro d hd
      match d with
      | [] => rfl
      | x :: xs =>
          show (if 255 ≤ (x :: xs).length then
              (x :: xs).take 255 :: subBlocksF fuel ((x :: xs).drop 255)
            else [x :: xs]).flatten = x :: xs
          split
          · rename_i hlen
            rw [List.flatten_cons, ih]
            · exact List.take_append_drop 255 (x :: xs)
            · simp only [List.length_drop]
              omega
          · simp

/-- Fuel `d.length` suffices for `subBlocksF`: the number of sub-blocks
is `⌈d.length / 255⌉`. -/
theorem subBlocksF_count (fuel : Nat) :
    ∀ d : List Nat, d.length ≤ fuel →
      (subBlocksF fuel d).length = (d.length + 254) / 255 := by
  induction fuel with
  | zero =>
      intro d hd
      have : d = [] := List.length_eq_zero.mp (Nat.le_zero.mp hd)
      subst this
      rfl
  | succ fuel ih =>
      intro d hd
      match d with
      | [] => rfl
      | x :: xs =>
          show (if 255 ≤ (x :: xs).length then
              (x :: xs).take 255 :: subBlocksF fuel ((x :: xs).drop 255)
            else [x :: xs]).length = ((x :: xs).length + 254) / 255
          split
          · rename_i hlen
            rw [List.length_cons, ih ((x :: xs).drop 255) (by simp only [List.length_drop]; omega)]
            simp only [List.length_drop] at *
            omega
          · rename_i hlen
            simp only [List.length_singleton, List.length_cons, List.length_nil] at *
            omega

/-- Fuel `d.length` suffices for `subBlocksF`: every sub-block payload
has length in `[1, 255]`. -/
theorem subBlocksF_mem_len (fuel : Nat) :
    ∀ d : List Nat, d.length ≤ fuel →
      ∀ c ∈ subBlocksF fuel d, 1 ≤ c.length ∧ c.length ≤ 255 := by
  induction fuel with
  | zero =>
      intro d hd
      have : d = [] := List.length_eq_zero.mp (Nat.le_zero.mp hd)
      subst this
      intro c hc
      simp [subBlocksF] at hc
  | succ fuel ih =>
      intro d hd
      match d with
      | [] => intro c hc; simp [subBlocksF] at hc
      | x :: xs =>
          intro c hc
          rw [show subBlocksF (fuel + 1) (x :: xs) =
              (if 255 ≤ (x :: xs).length then
                (x :: xs).take 255 :: subBlocksF fuel ((x :: xs).drop 255)
              else [x :: xs]) from rfl] at hc
          split at hc
          · rename_i hlen
            rcases List.mem_cons.mp hc with hc | hc
            · subst hc
              simp only [List.length_take, List.length_cons]
              omega
            · exact ih _ (by simp only [List.length_drop]; omega) c hc
          · rename_i hlen
            rcases List.mem_singleton.mp hc with rfl
            simp only [List.length_cons] at hlen ⊢
            omega

/-- A last-write-wins fold over pixels finds the last matching pixel:
it equals the first match of the reversed list, falling back to the
accumulator. -/
theorem foldl_last_write (l : List (List Nat)) (acc : Option (List Nat)) :
    l.foldl (fun t pix => if pix.getD 3 0 == 0 then some pix else t) acc =
      ((l.reverse.find? fun pix => pix.getD 3 0 == 0).or acc) := by
  induction l generalizing acc with
  | nil => rfl
  | cons x xs ih =>
      rw [List.foldl_cons, ih, List.reverse_cons, List.find?_append, Option.or_assoc]
      congr 1
      cases hx : x.getD 3 0 == 0 with
      | true =>
          simp only [List.getD_eq_getElem?_getD] at hx
          simp [List.find?, hx]
      | false =>
          simp only [List.getD_eq_getElem?_getD] at hx
          simp [List.find?, hx]

/-- `scan_transparent` finds the last zero-alpha pixel in scan order. -/
theorem scan_transparent_eq_last (data : List Nat) :
    scan_transparent data = last_zero_alpha data := by
  unfold scan_transparent last_zero_alpha
  rw [foldl_last_write]
  cases (chunks_exact4 data).reverse.find? fun pix => pix.getD 3 0 == 0 <;> rfl

/-- The stream loop over all-successful ticks followed by an error:
one frame chunk per success, then the error, then nothing. -/
theorem stream_loop_error {E : Type} (body : List Nat → List Nat)
    (nqOf : List Nat → Quantizer) (w h fd : Nat) (il : Bool) (dp : DisposalMethod)
    (e : E) (rest : List (Except E (List Nat))) :
    ∀ good : List (List Nat),
      stream_loop_items body nqOf w h fd il dp
          (good.map Except.ok ++ Except.error e :: rest) =
        good.map (fun d => Except.ok (stream_tick_chunk body nqOf w h fd il dp d)) ++
          [Except.error e] := by
  intro good
  induction good with
  | nil => rfl
  | cons d ds ih =>
      simp only [List.map_cons, List.cons_append, stream_loop_items, List.append_eq, ih]

/-! ## Claim theorems -/

set_option maxRecDepth 4000 in
/-- C1: for every color table whose color count (byte length divided
by 3) is at most 256, `flag_size` maps the count to the documented
bucket, and `write_color_table` produces exactly `3 * 2 ^ (class + 1)`
bytes: the table's first `num_colors * 3` bytes followed by black
padding up to the bucket boundary. -/
theorem write_color_table_bucket (table : List Nat) (h : table.length / 3 ≤ 256) :
    ((∀ n : Nat, n < 3 → flag_size n = 0) ∧ (∀ k : Nat, k < 2 → flag_size (3 + k) = 1) ∧
      (∀ k : Nat, k < 4 → flag_size (5 + k) = 2) ∧ (∀ k : Nat, k < 8 → flag_size (9 + k) = 3) ∧
      (∀ k : Nat, k < 16 → flag_size (17 + k) = 4) ∧
      (∀ k : Nat, k < 32 → flag_size (33 + k) = 5) ∧
      (∀ k : Nat, k < 64 → flag_size (65 + k) = 6) ∧
      (∀ k : Nat, k < 128 → flag_size (129 + k) = 7)) ∧
    write_color_table table =
      table.take (table.length / 3 * 3) ++
        List.replicate (3 * (2 ^ (flag_size (table.length / 3) + 1) - table.length / 3)) 0 ∧
    (write_color_table table).length = 3 * 2 ^ (flag_size (table.length / 3) + 1) := by
  have hbuckets : (∀ n : Nat, n < 3 → flag_size n = 0) ∧
      (∀ k : Nat, k < 2 → flag_size (3 + k) = 1) ∧
      (∀ k : Nat, k < 4 → flag_size (5 + k) = 2) ∧ (∀ k : Nat, k < 8 → flag_size (9 + k) = 3) ∧
      (∀ k : Nat, k < 16 → flag_size (17 + k) = 4) ∧
      (∀ k : Nat, k < 32 → flag_size (33 + k) = 5) ∧
      (∀ k : Nat, k < 64 → flag_size (65 + k) = 6) ∧
      (∀ k : Nat, k < 128 → flag_size (129 + k) = 7) := by
    refine ⟨by decide, by decide, by decide, by decide, by decide, by decide, by decide, by decide⟩
  have hfit : table.length / 3 ≤ 2 ^ (flag_size (table.length / 3) + 1) := by
    have := count_le_bucket (table.length / 3) (by omega)
    rwa [two_shiftLeft] at this
  have heq : write_color_table table =
      table.take (table.length / 3 * 3) ++
        List.replicate (3 * (2 ^ (flag_size (table.length / 3) + 1) - table.length / 3)) 0 := by
    rw [show write_color_table table =
        table.take (table.length / 3 * 3) ++
          (List.replicate (2 <<< flag_size (table.length / 3) - table.length / 3)
            ([0, 0, 0] : List Nat)).flatten from rfl,
      two_shiftLeft, flatten_replicate_triple]
  refine ⟨hbuckets, heq, ?_⟩
  rw [heq]
  have htake : (table.take (table.length / 3 * 3)).length = table.length / 3 * 3 := by
    rw [List.length_take]
    exact Nat.min_eq_left (Nat.div_mul_le_self table.length 3)
  rw [List.length_append, htake, List.length_replicate]
  omega

/-- C1 witness: a concrete 2-color table pads to the 2-slot bucket. -/
theorem write_color_table_bucket_w :
    ([1, 2, 3, 4, 5, 6] : List Nat).length / 3 ≤ 256 ∧
    (write_color_table [1, 2, 3, 4, 5, 6]).length =
      3 * 2 ^ (flag_size (([1, 2, 3, 4, 5, 6] : List Nat).length / 3) + 1) :=
  ⟨by decide, (write_color_table_bucket [1, 2, 3, 4, 5, 6] (by decide)).2.2⟩

/-- C2: for every compressed input (minimum-code-size byte followed by
a payload of `L` bytes), `write_encoded_image_block` emits the leading
byte, then `⌈L / 255⌉` sub-blocks, each a length prefixed payload with
the prefix in `[1, 255]`, then a terminating zero; the sub-block
payloads concatenate back to the original payload. -/
theorem encoded_image_block_chunking (m : Nat) (payload : List Nat) :
    write_encoded_image_block (m :: payload) =
      m :: (((subBlocks payload).map fun c => c.length :: c).flatten ++ [0]) ∧
    (subBlocks payload).length = (payload.length + 254) / 255 ∧
    (∀ c ∈ subBlocks payload, 1 ≤ c.length ∧ c.length ≤ 255) ∧
    (subBlocks payload).flatten = payload :=
  ⟨rfl, subBlocksF_count payload.length payload Nat.le.refl,
    subBlocksF_mem_len payload.length payload Nat.le.refl,
    subBlocksF_flatten payload.length payload Nat.le.refl⟩

/-- C2 witness: the chunking theorem applied at a concrete payload. -/
theorem encoded_image_block_chunking_w :
    (subBlocks [7, 8, 9]).length = (3 + 254) / 255 ∧
    (subBlocks [7, 8, 9]).flatten = [7, 8, 9] ∧
    write_encoded_image_block [4, 7, 8, 9] = [4, 3, 7, 8, 9, 0] :=
  ⟨(encoded_image_block_chunking 4 [7, 8, 9]).2.1,
    (encoded_image_block_chunking 4 [7, 8, 9]).2.2.2, by decide⟩

/-- C3: `write_extension (Repetitions 0)` writes nothing; for `r ≠ 0`,
`write_extension (Repetitions r)` is the 19-byte NETSCAPE block with
the repeat count as a little-endian u16; `InfiniteRepetitions` is the
same block with repeat field 0. -/
theorem write_extension_netscape (r : Nat) (hr : r ≠ 0) :
    write_extension (.Repetitions 0) = [] ∧
    write_extension (.Repetitions r) =
      [0x21, 0xFF, 11] ++ netscape_id ++ [3, 1] ++ [r % 256, r / 256 % 256] ++ [0] ∧
    (write_extension (.Repetitions r)).length = 19 ∧
    write_extension .InfiniteRepetitions =
      [0x21, 0xFF, 11] ++ netscape_id ++ [3, 1] ++ [0, 0] ++ [0] ∧
    (write_extension .InfiniteRepetitions).length = 19 := by
  obtain ⟨n, rfl⟩ := Nat.exists_eq_succ_of_ne_zero hr
  have h2 : write_extension (.Repetitions (n + 1)) =
      [0x21, 0xFF, 11] ++ netscape_id ++ [3, 1] ++
        [(n + 1) % 256, (n + 1) / 256 % 256] ++ [0] := rfl
  refine ⟨rfl, h2, ?_, by decide, by decide⟩
  rw [h2]
  simp [netscape_id]

/-- C3 witness: the extension theorem applied at repeat count 5. -/
theorem write_extension_netscape_w :
    (5 : Nat) ≠ 0 ∧ (write_extension (.Repetitions 5)).length = 19 :=
  ⟨by decide, (write_extension_netscape 5 (by decide)).2.2.1⟩

/-- C4: the minimum code size derived in `lzw_encode` is the size class
of `max pixel value + 1`, plus one, floored at 2; a raster whose
maximum value is 0 (including the empty raster) yields 2, never 1. -/
theorem min_code_size_floor (data : List Nat) :
    min_code_size data = max 2 (flag_size (1 + data.foldr Nat.max 0) + 1) ∧
    (data.foldr Nat.max 0 = 0 → min_code_size data = 2) ∧
    2 ≤ min_code_size data := by
  have key : min_code_size data = max 2 (flag_size (1 + data.foldr Nat.max 0) + 1) := by
    unfold min_code_size
    cases hs : flag_size (1 + data.foldr Nat.max 0) with
    | zero => rfl
    | succ k =>
        show k + 1 + 1 = max 2 (k + 1 + 1)
        omega
  refine ⟨key, ?_, ?_⟩
  · intro h0
    rw [key, h0]
    decide
  · rw [key]
    exact Nat.le_max_left 2 _

/-- C4 witness: an all-zero raster gets minimum code size 2. -/
theorem min_code_size_floor_w :
    ([0, 0, 0] : List Nat).foldr Nat.max 0 = 0 ∧ min_code_size [0, 0, 0] = 2 :=
  ⟨by decide, (min_code_size_floor [0, 0, 0]).2.1 (by decide)⟩

/-- C5: the stored frame delay equals
`clamp(interval_ms, 10, 65535 * 10) / 10`; 5 ms yields 1 and
10,000,000 ms yields 65535. -/
theorem frame_delay_clamped (interval_ms : Nat) :
    frame_delay_of_interval interval_ms = frame_delay_spec_formula interval_ms ∧
    frame_delay_of_interval 5 = 1 ∧
    frame_delay_of_interval 10000000 = 65535 := by
  refine ⟨?_, by decide, by decide⟩
  unfold frame_delay_of_interval frame_delay_spec_formula MIN_DELAY MAX_DELAY
  omega

/-- C6: both RGBA frame constructors record as the transparent index
the quantizer index of the last zero-alpha pixel in scan order, and
record none when no pixel has zero alpha. -/
theorem frame_transparent_last_scan (nq gp : Quantizer) (w h : Nat) (data : List Nat) :
    (Frame.from_rgba nq w h data).transparent = (last_zero_alpha data).map nq.index_of ∧
    (Frame.with_global_palette_rgba gp w h data).transparent =
      (last_zero_alpha data).map gp.index_of ∧
    ((∀ pix ∈ chunks_exact4 data, pix.getD 3 0 ≠ 0) →
      (Frame.from_rgba nq w h data).transparent = none ∧
      (Frame.with_global_palette_rgba gp w h data).transparent = none) := by
  refine ⟨?_, ?_, ?_⟩
  · show (scan_transparent data).map nq.index_of = (last_zero_alpha data).map nq.index_of
    rw [scan_transparent_eq_last]
  · show (scan_transparent data).map gp.index_of = (last_zero_alpha data).map gp.index_of
    rw [scan_transparent_eq_last]
  · intro hall
    have hnone : last_zero_alpha data = none := by
      unfold last_zero_alpha
      rw [List.find?_eq_none]
      intro pix hpix
      have := hall pix (List.mem_reverse.mp hpix)
      simpa using this
    constructor
    · show (scan_transparent data).map nq.index_of = none
      rw [scan_transparent_eq_last, hnone]
      rfl
    · show (scan_transparent data).map gp.index_of = none
      rw [scan_transparent_eq_last, hnone]
      rfl

/-- C6 witness: a raster with no zero-alpha pixel records no
transparent index. -/
theorem frame_transparent_last_scan_w :
    (∀ pix ∈ chunks_exact4 [1, 2, 3, 9], pix.getD 3 0 ≠ 0) ∧
    (Frame.from_rgba ⟨fun _ => 0, []⟩ 1 1 [1, 2, 3, 9]).transparent = none :=
  ⟨by decide,
    ((frame_transparent_last_scan ⟨fun _ => 0, []⟩ ⟨fun _ => 0, []⟩ 1 1
      [1, 2, 3, 9]).2.2 (by decide)).1⟩

/-- C7 counterexample: at width 2, height 2 the first yielded chunk of
the no-palette stream contains no extension introducer byte `0x21` at
all, so the loop-repetition (NETSCAPE) extension block is not part of
it; likewise for a concrete palette stream. -/
theorem stream_init_no_netscape_cex :
    stream_init_chunk 2 2 =
      [71, 73, 70, 56, 57, 97, 2, 0, 2, 0, 128, 0, 0, 0, 0, 0, 0, 0, 0] ∧
    0x21 ∉ stream_init_chunk 2 2 ∧
    0x21 ∉ stream_palette_init_chunk [255, 0, 0, 10, 10, 10] 2 2 := by decide

/-- C7 amended: no stream entry point writes the loop-repetition
extension; the first yielded chunk is exactly the screen descriptor
followed by the written global color table (19 bytes in the no-palette
mode), and in particular is not the chunk that would result from
appending the NETSCAPE block after the color table. -/
theorem stream_init_chunk_no_loop_block (w h : Nat) (palette : List Nat) :
    stream_init_chunk w h =
      write_screen_desc w h (some (global_palette_flags [])) ++ write_color_table [] ∧
    stream_palette_init_chunk palette w h =
      write_screen_desc w h (some (global_palette_flags palette)) ++
        write_color_table palette ∧
    (stream_init_chunk w h).length = 19 ∧
    stream_init_chunk w h ≠
      write_screen_desc w h (some (global_palette_flags [])) ++ write_color_table [] ++
        write_extension .InfiniteRepetitions := by
  have hlen : (stream_init_chunk w h).length = 19 := by
    unfold stream_init_chunk write_screen_desc u16le
    simp [write_color_table, flag_size]
  refine ⟨rfl, rfl, hlen, ?_⟩
  intro hcontra
  have : (stream_init_chunk w h).length =
      (write_screen_desc w h (some (global_palette_flags [])) ++ write_color_table [] ++
        write_extension .InfiniteRepetitions).length := by rw [← hcontra]
  rw [hlen] at this
  have h19 : (write_screen_desc w h (some (global_palette_flags [])) ++
      write_color_table []).length = 19 := hlen
  rw [List.length_append, h19] at this
  simp [write_extension, netscape_id, u16le] at this

/-- C8: when the producer's results are a run of successes followed by
an error, the stream yields the init chunk, one frame chunk per
success, and then the error unchanged as the terminal item; nothing is
yielded for the failing tick and nothing follows the error. -/
theorem stream_error_terminal {E : Type} (body : List Nat → List Nat)
    (nqOf : List Nat → Quantizer) (w h fd : Nat) (il : Bool) (dp : DisposalMethod)
    (good : List (List Nat)) (e : E) (rest : List (Except E (List Nat))) :
    stream_items body nqOf w h fd il dp (good.map Except.ok ++ Except.error e :: rest) =
      (Except.ok (stream_init_chunk w h) ::
        good.map fun d => Except.ok (stream_tick_chunk body nqOf w h fd il dp d)) ++
        [Except.error e] ∧
    (stream_items body nqOf w h fd il dp
        (good.map Except.ok ++ Except.error e :: rest)).getLast? =
      some (Except.error e) := by
  have hloop := stream_loop_error body nqOf w h fd il dp e rest good
  have heq : stream_items body nqOf w h fd il dp
      (good.map Except.ok ++ Except.error e :: rest) =
      (Except.ok (stream_init_chunk w h) ::
        good.map fun d => Except.ok (stream_tick_chunk body nqOf w h fd il dp d)) ++
        [Except.error e] := by
    unfold stream_items
    rw [hloop]
    simp
  refine ⟨heq, ?_⟩
  rw [heq, List.getLast?_concat]

/-- C9: the no-global-palette stream mode still declares a global color
table: the flags byte is `0x80` (bit 7 set, size class 0) and the first
chunk carries the 6-byte all-black table written for the empty table. -/
theorem stream_no_palette_global_table (w h : Nat) :
    global_palette_flags [] = 128 ∧
    Nat.testBit (global_palette_flags []) 7 = true ∧
    global_palette_flags [] % 16 = 0 ∧
    write_color_table [] = [0, 0, 0, 0, 0, 0] ∧
    stream_init_chunk w h = write_screen_desc w h (some 128) ++ [0, 0, 0, 0, 0, 0] :=
  ⟨by decide, by decide, by decide, by decide, rfl⟩

/-- C10: on the empty input, `write_encoded_image_block` appends
exactly the default minimum code size 2 and the terminating zero. -/
theorem encoded_image_block_empty : write_encoded_image_block [] = [2, 0] := by decide

end Gifstream
